import Mathlib

/-!
Shallow embedding of the PyPdnsRedis repository: the query/mutation engine and
the PowerDNS pipe-protocol state machine of `scripts/pdns_redis.py`, running
against the in-memory store of `PyPdnsRedis/mock.py` (`MockRedis`).

Conventions of the embedding:
* Python strings are Lean `String`s; helper functions (`pyInt?`, `pySplitStr`,
  `pyLower`, `pyUpper`) reproduce the Python built-ins actually used.
* Exceptions are modelled with `Except String` (the string is the message);
  `ValueError`s that the source catches are caught at the same places.
* The store (`MockRedis`) keeps its hashes as insertion-ordered association
  lists, matching the dict-backed mock.
-/

deriving instance DecidableEq for Except

namespace PdnsRedis

/-- Python whitespace characters as stripped by `int(...)`. -/
def pyWS (c : Char) : Bool :=
  c == ' ' || c == '\t' || c == '\n' || c == '\r' || c == '\x0b' || c == '\x0c'

/-- Value of a nonempty all-digit character list, else `none`. -/
def digitsVal (cs : List Char) : Option Nat :=
  if cs.isEmpty then none
  else if cs.all Char.isDigit then
    some (cs.foldl (fun a c => 10 * a + (c.toNat - 48)) 0)
  else none

/-- Python 2 `int(s)`: strip whitespace, optional sign, decimal digits;
`none` models the `ValueError` raised on anything else. -/
def pyInt? (s : String) : Option Int :=
  let cs := ((s.toList.dropWhile pyWS).reverse.dropWhile pyWS).reverse
  match cs with
  | '-' :: rest => (digitsVal rest).map (fun n => -(n : Int))
  | '+' :: rest => (digitsVal rest).map (fun n => (n : Int))
  | _ => (digitsVal cs).map (fun n => (n : Int))

/-- Python `str.lower()` (ASCII, as in the source's byte strings). -/
def pyLower (s : String) : String := String.mk (s.toList.map Char.toLower)

/-- Python `str.upper()`. -/
def pyUpper (s : String) : String := String.mk (s.toList.map Char.toUpper)

/-- Python `pre in s` / `s.startswith(pre)` for a prefix. -/
def pyStartsWith (s pre : String) : Bool := pre.toList.isPrefixOf s.toList

/-- Python `c in s` for a single character. -/
def pyContains (s : String) (c : Char) : Bool := s.toList.contains c

/-- Python `sep.join(parts)`. -/
def pyJoin (sep : String) : List String → String
  | [] => ""
  | [x] => x
  | x :: xs => x ++ sep ++ pyJoin sep xs

/-- Split a character list at the first occurrence of `sep`:
`some (before, after)` or `none` when `sep` does not occur. -/
def pySplitList (sep : Char) : List Char → Option (List Char × List Char)
  | [] => none
  | c :: cs =>
    if c = sep then some ([], cs)
    else
      match pySplitList sep cs with
      | none => none
      | some (a, b) => some (c :: a, b)

/-- Python `s.split(sep, n)` on character lists: at most `n` splits. -/
def pySplitN (sep : Char) : Nat → List Char → List (List Char)
  | 0, cs => [cs]
  | n + 1, cs =>
    match pySplitList sep cs with
    | none => [cs]
    | some (a, b) => a :: pySplitN sep n b

/-- Python `s.split(sep, n)` on strings. -/
def pySplitStr (sep : Char) (n : Nat) (s : String) : List String :=
  (pySplitN sep n s.toList).map (fun l => String.mk l)

/-- Python `s.split(sep)` with no split limit, on character lists. -/
def pySplitAllList (sep : Char) : List Char → List (List Char)
  | [] => [[]]
  | c :: cs =>
    match pySplitAllList sep cs with
    | [] => [[c]]
    | h :: t => if c = sep then [] :: h :: t else (c :: h) :: t

/-- Python `s.split(sep)` with no split limit. -/
def pySplitAll (sep : Char) (s : String) : List String :=
  (pySplitAllList sep s.toList).map (fun l => String.mk l)

/-- The `VALID_RECORDS` allow-list from the source. -/
def VALID_RECORDS : List String := ["A", "AAAA", "NS", "MX", "CNAME", "SOA", "TXT"]

/-- The `TTL_SUFFIXES` lookup from the source: M/H/D/W to their second counts. -/
def ttlSuffix? (c : Char) : Option Nat :=
  if c = 'M' then some 60
  else if c = 'H' then some 3600
  else if c = 'D' then some 86400
  else if c = 'W' then some 604800
  else none

/-- The source's REDIS key namespace constant, `"pdns."`. -/
def redisKeyBase : String := "pdns."

/-- The reserved query-counter hash field, `"TXT\tQC"`. -/
def qcField : String := "TXT\tQC"

/-- Model of `"\t".join([record, data])`: the composite hash-field key. -/
def tj (r d : String) : String := r ++ "\t" ++ d

/-- Association-list lookup (first match), the model of Python dict indexing. -/
def alGet {α : Type} : List (String × α) → String → Option α
  | [], _ => none
  | (k0, v) :: t, k => if k0 = k then some v else alGet t k

/-- Association-list update: replace the first binding of `k`, else append
(the model of `d[k] = v` on a dict). -/
def alSet {α : Type} : List (String × α) → String → α → List (String × α)
  | [], k, v => [(k, v)]
  | (k0, v0) :: t, k, v =>
    if k0 = k then (k0, v) :: t else (k0, v0) :: alSet t k v

/-- Association-list deletion of a key (the model of `del d[k]`). -/
def alErase {α : Type} (l : List (String × α)) (k : String) : List (String × α) :=
  l.filter (fun p => ¬(p.1 = k))

/-- The in-memory store of `PyPdnsRedis/mock.py`, restricted to the
hash-valued keys the query/mutation engine uses. -/
structure MockRedis where
  data : List (String × List (String × String))
deriving DecidableEq

/-- Model of `MockRedis.hget`: `data[key][hkey]` when both are present, else `None`. -/
def hget (st : MockRedis) (key hkey : String) : Option String :=
  (alGet st.data key).bind (fun h => alGet h hkey)

/-- Model of `MockRedis.hgetall`: the hash under `key`, or the empty dict. -/
def hgetall (st : MockRedis) (key : String) : List (String × String) :=
  (alGet st.data key).getD []

/-- Model of `MockRedis.hset`: create the hash if absent, then bind `hkey` to `val`. -/
def hset (st : MockRedis) (key hkey val : String) : MockRedis :=
  ⟨alSet st.data key (alSet ((alGet st.data key).getD []) hkey val)⟩

/-- Model of `MockRedis.hincrby`: create the hash / field (at 0) if absent, parse the
stored value with `int(...)` (`ValueError` modelled as `.error`), store the
incremented value as a decimal string, and return the new integer. -/
def hincrby (st : MockRedis) (key hkey : String) (val : Int) :
    Except String (Int × MockRedis) :=
  let h := (alGet st.data key).getD []
  let oldS := (alGet h hkey).getD "0"
  match pyInt? oldS with
  | none => .error ("invalid literal for int() with base 10: " ++ oldS)
  | some old =>
    let n := old + val
    .ok (n, ⟨alSet st.data key (alSet h hkey (toString n))⟩)

/-- Model of `MockRedis.hdel`: remove the field when both the key and the field are
present (`key in self.data and hkey in self.data[key]`, which is exactly
`hget` succeeding); the mock always returns `True`, which the caller counts
as 1. -/
def hdel (st : MockRedis) (key hkey : String) : MockRedis :=
  if (hget st key hkey).isSome then
    ⟨alSet st.data key (alErase ((alGet st.data key).getD []) hkey)⟩
  else st

/-- Model of `MockRedis.delete`: drop the key, reporting whether it existed. -/
def MockRedis.delete (st : MockRedis) (key : String) : Bool × MockRedis :=
  ((alGet st.data key).isSome, ⟨alErase st.data key⟩)

/-- The normalised state of a `QueryOp` after `QueryOp.__init__`:
domain lowercased, record uppercased (empty/absent collapsed to `none`),
data kept verbatim (empty/absent collapsed to `none`, matching the
truthiness tests `self.record and self.data` etc. in the source). -/
structure QueryOp where
  domain : String
  record : Option String
  data : Option String
deriving DecidableEq

/-- Model of `QueryOp.__init__`'s normalisation of its arguments (the source also
requires a nonempty domain; callers in the theorems supply one). -/
def mkQueryOp (domain : String) (record : Option String) (data : Option String) :
    QueryOp :=
  { domain := pyLower domain
    record := record.bind (fun r => if r = "" then none else some (pyUpper r))
    data := data.bind (fun d => if d = "" then none else some d) }

/-- A query-result tuple `(self.domain, record, ttl, data)`. -/
structure DnsRec where
  dom : String
  rtype : String
  ttl : String
  rdata : String
deriving DecidableEq

/-- Model of `domain or self.domain`: Python truthiness of the optional `domain`
argument of `QueryOp.Query`. -/
def orDomain (qop : QueryOp) (domArg : Option String) : String :=
  match domArg with
  | some d => if d = "" then qop.domain else d
  | none => qop.domain

/-- Model of `record, data = entry.split("\t", 1)`: unpacking a composite hash-field
key; a missing separator is Python's `ValueError` on unpacking. -/
def decodeField (entry : String) : Except String (String × String) :=
  match pySplitStr '\t' 1 entry with
  | [r, d] => .ok (r, d)
  | _ => .error "need more than 1 value to unpack"

/-- Decode one hash entry `(field, ttl)` into a result tuple for `qop`. -/
def decodeEntry (qop : QueryOp) (e : String × String) : Except String DnsRec :=
  (decodeField e.1).map (fun rd => ⟨qop.domain, rd.1, e.2, rd.2⟩)

/-- Decode all hash entries in iteration order; the first malformed entry
raises, as in the source's `for entry in ddata` loops (the split runs before
the filter test). -/
def decodeEntries (qop : QueryOp) : List (String × String) → Except String (List DnsRec)
  | [] => .ok []
  | e :: t => (decodeEntry qop e).bind (fun r => (decodeEntries qop t).map (fun l => r :: l))

/-- The filter applied by `QueryOp.Query`'s three `hgetall` loops: keep by
record type, by data, or keep everything. -/
def filterRecs (qop : QueryOp) (recs : List DnsRec) : List DnsRec :=
  match qop.record, qop.data with
  | some r, none => recs.filter (fun x => x.rtype == r)
  | none, some d => recs.filter (fun x => x.rdata == d)
  | _, _ => recs

/-- The body of `QueryOp.Query`, with the wildcard fallback `wild` passed in
(`self.WildQuery` when wildcards are enabled, "return []" otherwise). -/
def queryCore (qop : QueryOp)
    (wild : MockRedis → String → Except String (List DnsRec × MockRedis))
    (st : MockRedis) (domArg : Option String) :
    Except String (List DnsRec × MockRedis) :=
  let pdnsKey := redisKeyBase ++ orDomain qop domArg
  match qop.record, qop.data with
  | some record, some data =>
    match hget st pdnsKey (tj record data) with
    | some ttl =>
      (hincrby st pdnsKey qcField 1).map
        (fun p => ([⟨qop.domain, record, ttl, data⟩], p.2))
    | none => wild st (orDomain qop domArg)
  | _, _ =>
    (decodeEntries qop (hgetall st pdnsKey)).bind (fun recs =>
      let rv := filterRecs qop recs
      if rv = [] then wild st (orDomain qop domArg)
      else
        (hincrby st pdnsKey qcField 1).map (fun p => (rv, p.2)))

/-- The disabled wildcard fallback: `return []`, leaving the store alone. -/
def noWildcards : MockRedis → String → Except String (List DnsRec × MockRedis) :=
  fun st _ => .ok ([], st)

/-- Model of `QueryOp.WildQuery`: split off the leftmost label (dropping a literal
`*` label first), re-run `Query` on `*.remainder` with wildcards disabled,
and catch the `ValueError`s (from unpacking or from `int(...)`) by
returning `[]`; every exception the inner query can raise in this model is
a `ValueError`, and none of them mutates the store first. -/
def wildQuery (qop : QueryOp) (st : MockRedis) (domain : String) :
    Except String (List DnsRec × MockRedis) :=
  match pySplitStr '.' 1 domain with
  | [sub, dom] =>
    let dom? : Option String :=
      if sub = "*" then
        match pySplitStr '.' 1 dom with
        | [_, dom2] => some dom2
        | _ => none
      else some dom
    match dom? with
    | none => .ok ([], st)
    | some d =>
      match queryCore qop noWildcards st (some ("*." ++ d)) with
      | .ok out => .ok out
      | .error _ => .ok ([], st)
  | _ => .ok ([], st)

/-- Model of `QueryOp.Query(domain, wildcards)`. -/
def Query (qop : QueryOp) (st : MockRedis) (domArg : Option String)
    (wildcards : Bool) : Except String (List DnsRec × MockRedis) :=
  queryCore qop (if wildcards then wildQuery qop else noWildcards) st domArg

/-- The stored query counter, read as an integer (0 when absent), matching
what `hincrby` would start from. -/
def fieldInt (st : MockRedis) (key f : String) : Int :=
  match hget st key f with
  | some v => (pyInt? v).getD 0
  | none => 0

/-- The query counter under `key` as an integer. -/
def qcInt (st : MockRedis) (key : String) : Int := fieldInt st key qcField

/-- Well-formedness of the stored query counter under `key`: if present it
parses as an integer, so `hincrby` cannot raise. -/
def qcOK (st : MockRedis) (key : String) : Bool :=
  match hget st key qcField with
  | some v => (pyInt? v).isSome
  | none => true

/-- TTL decoding from `AddOp.__init__`: a trailing `M`/`H`/`D`/`W` (either
case) multiplies the integer prefix; otherwise the whole spec is parsed as
an integer of seconds. `none` models the uncaught `ValueError` of
`int(...)`. -/
def decodeTtlInt (ttl : String) : Option Int :=
  match ttl.toList.getLast? with
  | none => pyInt? ttl
  | some c =>
    match ttlSuffix? (Char.toUpper c) with
    | some mult => (pyInt? (String.mk ttl.toList.dropLast)).map (fun n => n * (mult : Int))
    | none => pyInt? ttl

/-- The TTL as stored by `AddOp`: `str(...)` of the decoded value. -/
def decodeTtl (ttl : String) : Option String :=
  (decodeTtlInt ttl).map (fun n => toString n)

/-- The exceptions `AddOp.__init__` (and the underlying `QueryOp.__init__`)
can raise: `ArgumentError`s for the domain/record/data checks, and the
`ValueError` of `int(...)` on a malformed TTL. -/
inductive AddErr where
  | domainRequired
  | invalidRecordType (r : Option String)
  | emptyData
  | invalidTtl (spec : String)
deriving DecidableEq

/-- A validated `AddOp`: normalised domain/record/data plus the stored TTL
string. -/
structure AddOp where
  domain : String
  record : String
  rdata : String
  ttl : String
deriving DecidableEq

/-- Model of `AddOp.__init__`: domain required, record in the allow-list, data
nonempty, TTL decoded per `decodeTtl`, in the source's order of checks. -/
def mkAddOp (domain : String) (record : Option String) (data : Option String)
    (ttl : String) : Except AddErr AddOp :=
  if domain = "" then .error .domainRequired
  else
    let q := mkQueryOp domain record data
    match q.record with
    | none => .error (.invalidRecordType none)
    | some r =>
      if VALID_RECORDS.contains r then
        match q.data with
        | none => .error .emptyData
        | some d =>
          match decodeTtl ttl with
          | some t => .ok ⟨q.domain, r, d, t⟩
          | none => .error (.invalidTtl ttl)
      else .error (.invalidRecordType (some r))

/-- Model of `AddOp.Run`: upsert the field `(record, data) → ttl` under the domain
key and report. -/
def AddOp.Run (op : AddOp) (st : MockRedis) : String × MockRedis :=
  ("Added " ++ op.record ++ " record to " ++ op.domain ++ ".",
   hset st (redisKeyBase ++ op.domain) (tj op.record op.rdata) op.ttl)

/-- Model of `DeleteOp.Run` on a (normalised) `QueryOp` state: no filters deletes
the whole domain key; both filters delete the one field (the mock's `hdel`
returns `True`, counted as 1); one filter enumerates matches through
`Query` (no wildcards) and deletes each. -/
def DeleteOp.Run (q : QueryOp) (st : MockRedis) :
    Except String (String × MockRedis) :=
  match q.record, q.data with
  | none, none =>
    let p := MockRedis.delete st (redisKeyBase ++ q.domain)
    .ok ("Deleted all records for " ++ q.domain ++ ".", p.2)
  | some r, some d =>
    .ok ("Deleted 1 records from " ++ q.domain ++ ".",
         hdel st (redisKeyBase ++ q.domain) (tj r d))
  | _, _ =>
    (queryCore q noWildcards st none).map (fun p =>
      ("Deleted " ++ toString p.1.length ++ " records from " ++ q.domain ++ ".",
       p.1.foldl (fun s rec => hdel s (redisKeyBase ++ q.domain) (tj rec.rtype rec.rdata)) p.2))

/-- The mutable state of `PdnsChatter` that the main loop touches (the
self-test cache is omitted: the only call site of `MagicTest` raises a
`NameError` before reaching it, see `SendRecord`). -/
structure ChatState where
  localIp : Option String
  wildcards : Bool
  logBuffer : List String
deriving DecidableEq

/-- Model of `PdnsChatter.SetLocalIp`: adopt an address unless it is unspecified,
loopback or private. -/
def SetLocalIp (cs : ChatState) (value : String) : ChatState :=
  if value = "0.0.0.0" || pyStartsWith value "127." ||
     pyStartsWith value "192.168." || pyStartsWith value "10." then cs
  else { cs with localIp := some value }

/-- A `DATA` reply line. -/
def dataLine (dom rtype ttl rdata : String) : String :=
  "DATA\t" ++ dom ++ "\tIN\t" ++ rtype ++ "\t" ++ ttl ++ "\t-1\t" ++ rdata

/-- Characters matched by `SRV_SPLIT = re.compile('[\s,]+')`. -/
def isSrvSep (c : Char) : Bool :=
  c == ' ' || c == '\t' || c == '\n' || c == '\r' || c == '\x0b' || c == '\x0c' || c == ','

/-- Split at the first run of whitespace/comma characters (`maxsplit=1`). -/
def srvSplitList : List Char → Option (List Char × List Char)
  | [] => none
  | c :: cs =>
    if isSrvSep c then some ([], cs.dropWhile isSrvSep)
    else
      match srvSplitList cs with
      | none => none
      | some (a, b) => some (c :: a, b)

/-- Model of `'\t'.join(SRV_SPLIT.split(data, 1))`: the priority/target rewrite for
MX and SRV data. -/
def srvJoin (s : String) : String :=
  match srvSplitList s.toList with
  | some (a, b) => String.mk a ++ "\t" ++ String.mk b
  | none => s

/-- Model of `PdnsChatter.SendRecord`. On data starting with the reserved `self`
marker and containing `:`, the source unpacks
`magic, test_want, test_url = record[3].split(':', 2)` and then calls
`self.MagicTest(want, test_url)` where `want` is an unbound name: Python
raises `ValueError` when the unpacking fails (fewer than 3 parts) and
`NameError` otherwise, so the magic-test branch always raises. Without a
colon the local IP must be known, and is substituted into the `DATA`
line. -/
def SendRecord (cs : ChatState) (r : DnsRec) : Except String String :=
  if pyStartsWith r.rdata "self" then
    if pyContains r.rdata ':' then
      if (pySplitStr ':' 2 r.rdata).length < 3 then
        .error "need more than 2 values to unpack"
      else
        .error "global name want is not defined"
    else
      match cs.localIp with
      | none => .error "Local IP address is unknown"
      | some ip => .ok (dataLine r.dom r.rtype r.ttl ip)
  else .ok (dataLine r.dom r.rtype r.ttl r.rdata)

/-- Reply lines for one record in `PdnsChatter.Lookup`'s dispatch loop:
MX/SRV are split into priority and target; the reserved `TXT`/`QC` counter
is never emitted; everything else goes through `SendRecord`. -/
def emitRecord (cs : ChatState) (r : DnsRec) : Except String (List String) :=
  if r.rtype = "MX" || r.rtype = "SRV" then
    .ok [dataLine r.dom r.rtype r.ttl (srvJoin r.rdata)]
  else if r.rtype ≠ "TXT" ∨ r.rdata ≠ "QC" then
    (SendRecord cs r).map (fun l => [l])
  else .ok []

/-- Run the dispatch loop over all records, keeping the lines already
written when a record raises (replies are flushed as they are written). -/
def emitRecords (cs : ChatState) : List DnsRec → List String × Option String
  | [] => ([], none)
  | r :: t =>
    match emitRecord cs r with
    | .ok ls =>
      let p := emitRecords cs t
      (ls ++ p.1, p.2)
    | .error e => ([], some e)

/-- Python's `%s` rendering of the split request list in the bad-request
log line (quoting abstracted to `\x27`). -/
def pyListRepr (l : List String) : String :=
  "[" ++ pyJoin ", " (l.map (fun s => "\x27" ++ s ++ "\x27")) ++ "]"

/-- Model of `PdnsChatter.Lookup` on a 7-field request: adopt a local IP if still
unknown (the `getaddrinfo` fallback is environment-dependent, swallowed on
failure, and modelled as the failing case), dispatch `Q` queries, and emit
the reply lines. Returns the lines written, the updated chatter state and
store, and the pending exception if one was raised. -/
def Lookup (cs : ChatState) (st : MockRedis) (q : List String) :
    List String × ChatState × MockRedis × Option String :=
  match q with
  | [pdnsQtype, domain, _qclass, rtype, _id, _remoteIp, localIp] =>
    let cs1 := if cs.localIp.isNone then SetLocalIp cs localIp else cs
    if pdnsQtype = "Q" then
      let qres : Except String (List DnsRec × MockRedis) :=
        if domain = "" then .ok ([], st)
        else if rtype = "ANY" then Query (mkQueryOp domain none none) st none cs1.wildcards
        else Query (mkQueryOp domain (some rtype) none) st none cs1.wildcards
      match qres with
      | .error e => ([], cs1, st, some e)
      | .ok (records, st') =>
        let p := emitRecords cs1 records
        match p.2 with
        | some e => (p.1, cs1, st', some e)
        | none =>
          (p.1 ++ cs1.logBuffer.map (fun m => "LOG\t" ++ m) ++ ["END"],
           { cs1 with logBuffer := [] }, st', none)
    else
      let buf := cs1.logBuffer ++ ["PowerDNS requested " ++ pdnsQtype ++ ", we only do Q."]
      (buf.map (fun m => "LOG\t" ++ m) ++ ["FAIL"],
       { cs1 with logBuffer := [] }, st, none)
  | _ => ([], cs, st, some "unpack")

/-- One iteration of `PdnsChatter.Run`'s main loop on the line just read:
split on tabs; 7 fields are dispatched to `Lookup`; otherwise (or when
processing raises) the buffered log lines are flushed, a `LOG` line
describing the problem and a `FAIL` line are written, and the loop
continues with the returned state. -/
def loopStep (cs : ChatState) (st : MockRedis) (line : String) :
    ChatState × MockRedis × List String :=
  let query := pySplitAll '\t' line
  if query.length = 7 then
    match Lookup cs st query with
    | (outs, cs', st', none) => (cs', st', outs)
    | (outs, cs', st', some e) =>
      ({ cs' with logBuffer := [] }, st',
       outs ++ cs'.logBuffer.map (fun m => "LOG\t" ++ m) ++
         ["LOG\tInternal Error: " ++ e, "FAIL"])
  else
    ({ cs with logBuffer := [] }, st,
     cs.logBuffer.map (fun m => "LOG\t" ++ m) ++
       ["LOG\tPowerDNS sent bad request: " ++ pyListRepr query, "FAIL"])

/-- The main loop over a whole input stream: every line is processed; the
loop stops only when the input is exhausted (`readline` raising `IOError`
on EOF is outside the `try`). -/
def runLines : ChatState → MockRedis → List String → List String
  | _, _, [] => []
  | cs, st, l :: ls =>
    let p := loopStep cs st l
    p.2.2 ++ runLines p.1 p.2.1 ls

/-! ### Association-list and store lemmas -/

theorem alGet_alSet_self {α : Type} (l : List (String × α)) (k : String) (v : α) :
    alGet (alSet l k v) k = some v := by
  induction l with
  | nil => simp [alSet, alGet]
  | cons p t ih =>
    obtain ⟨k0, v0⟩ := p
    by_cases h : k0 = k
    · simp [alSet, alGet, h]
    · simp [alSet, alGet, h, ih]

theorem alGet_alSet_ne {α : Type} (l : List (String × α)) (k k' : String) (v : α)
    (h : k' ≠ k) : alGet (alSet l k v) k' = alGet l k' := by
  have hkk : ¬(k = k') := fun hh => h hh.symm
  induction l with
  | nil =>
    simp only [alSet, alGet]
    rw [if_neg hkk]
  | cons p t ih =>
    obtain ⟨k0, v0⟩ := p
    simp only [alSet]
    by_cases hk : k0 = k
    · rw [if_pos hk]
      subst hk
      simp only [alGet]
      rw [if_neg hkk, if_neg hkk]
    · rw [if_neg hk]
      simp only [alGet]
      by_cases hk' : k0 = k'
      · rw [if_pos hk', if_pos hk']
      · rw [if_neg hk', if_neg hk', ih]

theorem alGet_alErase_self {α : Type} (l : List (String × α)) (k : String) :
    alGet (alErase l k) k = none := by
  induction l with
  | nil => simp [alErase, alGet]
  | cons p t ih =>
    obtain ⟨k0, v0⟩ := p
    simp only [alErase, List.filter_cons] at ih ⊢
    by_cases h : k0 = k
    · rw [if_neg (show ¬((decide ¬((k0, v0).1 = k)) = true) from by simp [h])]
      exact ih
    · simp only [show (decide ¬((k0, v0).1 = k)) = true from by simp [h], if_pos]
      simp only [alGet]
      rw [if_neg h]
      exact ih

theorem alGet_mem {α : Type} (l : List (String × α)) (k : String) (v : α)
    (h : alGet l k = some v) : (k, v) ∈ l := by
  induction l with
  | nil => simp [alGet] at h
  | cons p t ih =>
    obtain ⟨k0, v0⟩ := p
    by_cases hk : k0 = k
    · subst hk
      simp [alGet] at h
      simp [h]
    · simp only [alGet] at h
      rw [if_neg hk] at h
      exact List.mem_cons_of_mem _ (ih h)

theorem alGet_alErase_ne {α : Type} (l : List (String × α)) (k k' : String)
    (h : k' ≠ k) : alGet (alErase l k) k' = alGet l k' := by
  induction l with
  | nil => simp [alErase, alGet]
  | cons p t ih =>
    obtain ⟨k0, v0⟩ := p
    simp only [alErase, List.filter_cons] at ih ⊢
    by_cases hk : k0 = k
    · have hk0 : ¬(k0 = k') := by rw [hk]; exact fun hh => h hh.symm
      rw [if_neg (show ¬((decide ¬((k0, v0).1 = k)) = true) from by simp [hk])]
      rw [show alGet ((k0, v0) :: t) k' = alGet t k' from by
        simp only [alGet]; rw [if_neg hk0]]
      exact ih
    · simp only [show (decide ¬((k0, v0).1 = k)) = true from by simp [hk], if_pos]
      simp only [alGet]
      by_cases hk' : k0 = k'
      · rw [if_pos hk', if_pos hk']
      · rw [if_neg hk', if_neg hk', ih]

/-- The hash a `MockRedis` operation works on coincides with `hget`. -/
theorem alGet_getD_eq_hget (st : MockRedis) (k f : String) :
    alGet ((alGet st.data k).getD []) f = hget st k f := by
  unfold hget
  cases alGet st.data k <;> simp [alGet]

theorem hget_hset_self (st : MockRedis) (k f v : String) :
    hget (hset st k f v) k f = some v := by
  simp [hget, hset, alGet_alSet_self]

/-- Characterisation of a successful `hincrby`: the returned integer is the
old field value (0 when absent) plus the delta, and the new state rebinds
just that field. -/
theorem hincrby_ok_spec (st : MockRedis) (k f : String) (d n : Int) (st' : MockRedis)
    (h : hincrby st k f d = .ok (n, st')) :
    n = fieldInt st k f + d ∧
    st' = ⟨alSet st.data k (alSet ((alGet st.data k).getD []) f (toString n))⟩ := by
  simp only [hincrby] at h
  cases hv : alGet ((alGet st.data k).getD []) f with
  | some v =>
    have hh : hget st k f = some v := by rw [← alGet_getD_eq_hget, hv]
    rw [hv] at h
    simp only [Option.getD_some] at h
    cases hp : pyInt? v with
    | none => rw [hp] at h; exact absurd h (by simp)
    | some old =>
      rw [hp] at h
      simp only [Except.ok.injEq, Prod.mk.injEq] at h
      obtain ⟨h1, h2⟩ := h
      subst h1
      refine ⟨?_, h2.symm⟩
      simp [fieldInt, hh, hp]
  | none =>
    have hh : hget st k f = none := by rw [← alGet_getD_eq_hget, hv]
    rw [hv] at h
    simp only [Option.getD_none] at h
    rw [show pyInt? "0" = some 0 from by decide] at h
    simp only [Except.ok.injEq, Prod.mk.injEq] at h
    obtain ⟨h1, h2⟩ := h
    subst h1
    refine ⟨?_, h2.symm⟩
    simp [fieldInt, hh]

/-- A successful `hincrby` leaves the incremented field readable as the
rendered new value. -/
theorem hget_hincrby_self (st : MockRedis) (k f : String) (d n : Int) (st' : MockRedis)
    (h : hincrby st k f d = .ok (n, st')) : hget st' k f = some (toString n) := by
  obtain ⟨-, h2⟩ := hincrby_ok_spec st k f d n st' h
  subst h2
  simp [hget, alGet_alSet_self]

/-- Frame property of `hincrby`: every other (key, field) pair reads the
same before and after. -/
theorem hget_hincrby_frame (st : MockRedis) (k f : String) (d n : Int) (st' : MockRedis)
    (h : hincrby st k f d = .ok (n, st')) (k' f' : String) (hne : ¬(k' = k ∧ f' = f)) :
    hget st' k' f' = hget st k' f' := by
  obtain ⟨-, h2⟩ := hincrby_ok_spec st k f d n st' h
  subst h2
  by_cases hk : k' = k
  · subst hk
    have hf : f' ≠ f := fun hf => hne ⟨rfl, hf⟩
    simp [hget, alGet_alSet_self, alGet_alSet_ne _ _ _ _ hf, alGet_getD_eq_hget, hget]
  · simp [hget, alGet_alSet_ne _ _ _ _ hk]

/-- Property `qcOK` guarantees `hincrby` on the query counter succeeds. -/
theorem hincrby_ok_of_qcOK (st : MockRedis) (k : String) (d : Int)
    (h : qcOK st k = true) :
    ∃ n st', hincrby st k qcField d = .ok (n, st') := by
  simp only [hincrby, alGet_getD_eq_hget]
  cases hv : hget st k qcField with
  | some v =>
    simp only [qcOK, hv] at h
    obtain ⟨old, hp⟩ := Option.isSome_iff_exists.mp h
    simp [hv, hp]
  | none =>
    simp [hv, show pyInt? "0" = some 0 from by decide]

/-! ### Query-engine lemmas -/

theorem star_append_ne_empty (d : String) : ("*." ++ d) ≠ "" := by
  intro h
  have h2 := congrArg String.length h
  simp [String.length_append] at h2
  exact absurd h2.1 (by decide)

theorem filterRecs_nil (qop : QueryOp) : filterRecs qop [] = [] := by
  unfold filterRecs
  cases qop.record <;> cases qop.data <;> simp

/-- If the domain key is entirely absent, every path of `queryCore` falls
through to the wildcard fallback with the store untouched. -/
theorem queryCore_miss (qop : QueryOp)
    (w : MockRedis → String → Except String (List DnsRec × MockRedis))
    (st : MockRedis) (domArg : Option String)
    (h : alGet st.data (redisKeyBase ++ orDomain qop domArg) = none) :
    queryCore qop w st domArg = w st (orDomain qop domArg) := by
  have hh : ∀ f, hget st (redisKeyBase ++ orDomain qop domArg) f = none := by
    intro f
    simp [hget, h]
  have hga : hgetall st (redisKeyBase ++ orDomain qop domArg) = [] := by
    simp [hgetall, h]
  simp only [queryCore]
  cases hrec : qop.record with
  | some record =>
    cases hdat : qop.data with
    | some data => simp only [hrec, hdat, hh]
    | none =>
      simp only [hrec, hdat, hga]
      simp [decodeEntries, Except.bind, filterRecs_nil]
  | none =>
    cases hdat : qop.data <;>
      · simp only [hrec, hdat, hga]
        simp [decodeEntries, Except.bind, filterRecs_nil]

/-- The state/counter postcondition of the query paths: an empty result
leaves the store untouched; a non-empty one is exactly one successful
`hincrby` of the query counter under a key satisfying `K`. -/
def QPostK (K : String → Prop) (st : MockRedis) (rv : List DnsRec) (st' : MockRedis) : Prop :=
  (rv = [] → st' = st) ∧
  (rv ≠ [] → ∃ key, K key ∧ hincrby st key qcField 1 = .ok (qcInt st key + 1, st'))

theorem noWildcards_counter (K : String → Prop) :
    ∀ st d rv st', noWildcards st d = .ok (rv, st') → QPostK K st rv st' := by
  intro st d rv st' h
  simp only [noWildcards, Except.ok.injEq, Prod.mk.injEq] at h
  obtain ⟨h1, h2⟩ := h
  subst h1
  subst h2
  exact ⟨fun _ => rfl, fun hne => absurd rfl hne⟩

/-- The `hgetall`-based paths of `queryCore` satisfy the counter
postcondition. -/
theorem queryCore_counter_all (qop : QueryOp)
    (w : MockRedis → String → Except String (List DnsRec × MockRedis))
    (K : String → Prop) (st : MockRedis) (domArg : Option String)
    (rv : List DnsRec) (st' : MockRedis)
    (hK : K (redisKeyBase ++ orDomain qop domArg))
    (hw : ∀ st2 d rv2 st2', w st2 d = .ok (rv2, st2') → QPostK K st2 rv2 st2')
    (h : (decodeEntries qop (hgetall st (redisKeyBase ++ orDomain qop domArg))).bind
      (fun recs =>
        let rv0 := filterRecs qop recs
        if rv0 = [] then w st (orDomain qop domArg)
        else (hincrby st (redisKeyBase ++ orDomain qop domArg) qcField 1).map
          (fun p => (rv0, p.2))) = .ok (rv, st')) :
    QPostK K st rv st' := by
  cases hde : decodeEntries qop (hgetall st (redisKeyBase ++ orDomain qop domArg)) with
  | error e => rw [hde] at h; simp [Except.bind] at h
  | ok recs =>
    rw [hde] at h
    simp only [Except.bind] at h
    by_cases hrv : filterRecs qop recs = []
    · rw [if_pos hrv] at h
      exact hw _ _ _ _ h
    · rw [if_neg hrv] at h
      cases hi : hincrby st (redisKeyBase ++ orDomain qop domArg) qcField 1 with
      | error e => rw [hi] at h; simp [Except.map] at h
      | ok p =>
        obtain ⟨n, st2⟩ := p
        rw [hi] at h
        simp only [Except.map, Except.ok.injEq, Prod.mk.injEq] at h
        obtain ⟨h1, h2⟩ := h
        subst h2
        subst h1
        refine ⟨fun h0 => absurd h0 hrv, fun _ => ?_⟩
        refine ⟨redisKeyBase ++ orDomain qop domArg, hK, ?_⟩
        obtain ⟨hn, -⟩ := hincrby_ok_spec _ _ _ _ _ _ hi
        simp only [qcInt]
        rw [← hn]
        exact hi

theorem queryCore_counter (qop : QueryOp)
    (w : MockRedis → String → Except String (List DnsRec × MockRedis))
    (K : String → Prop) (st : MockRedis) (domArg : Option String)
    (rv : List DnsRec) (st' : MockRedis)
    (hK : K (redisKeyBase ++ orDomain qop domArg))
    (hw : ∀ st2 d rv2 st2', w st2 d = .ok (rv2, st2') → QPostK K st2 rv2 st2')
    (h : queryCore qop w st domArg = .ok (rv, st')) :
    QPostK K st rv st' := by
  simp only [queryCore] at h
  cases hrec : qop.record with
  | some record =>
    cases hdat : qop.data with
    | some data =>
      simp only [hrec, hdat] at h
      cases hh : hget st (redisKeyBase ++ orDomain qop domArg) (tj record data) with
      | some ttl =>
        simp only [hh] at h
        cases hi : hincrby st (redisKeyBase ++ orDomain qop domArg) qcField 1 with
        | error e => rw [hi] at h; simp [Except.map] at h
        | ok p =>
          obtain ⟨n, st2⟩ := p
          rw [hi] at h
          simp only [Except.map, Except.ok.injEq, Prod.mk.injEq] at h
          obtain ⟨h1, h2⟩ := h
          subst h2
          refine ⟨fun h0 => absurd h0 (by rw [← h1]; simp), fun _ => ?_⟩
          refine ⟨redisKeyBase ++ orDomain qop domArg, hK, ?_⟩
          obtain ⟨hn, -⟩ := hincrby_ok_spec _ _ _ _ _ _ hi
          simp only [qcInt]
          rw [← hn]
          exact hi
      | none =>
        simp only [hh] at h
        exact hw _ _ _ _ h
    | none =>
      simp only [hrec, hdat] at h
      exact queryCore_counter_all qop w K st domArg rv st' hK hw h
  | none =>
    cases hdat : qop.data with
    | some data =>
      simp only [hrec, hdat] at h
      exact queryCore_counter_all qop w K st domArg rv st' hK hw h
    | none =>
      simp only [hrec, hdat] at h
      exact queryCore_counter_all qop w K st domArg rv st' hK hw h

/-- A trivially satisfied postcondition for the `return []` paths. -/
theorem QPostK_of_ok_nil (K : String → Prop) (st : MockRedis) (rv : List DnsRec)
    (st' : MockRedis)
    (hh : (Except.ok ([], st) : Except String (List DnsRec × MockRedis)) = .ok (rv, st')) :
    QPostK K st rv st' := by
  simp only [Except.ok.injEq, Prod.mk.injEq] at hh
  obtain ⟨h1, h2⟩ := hh
  subst h1
  subst h2
  exact ⟨fun _ => rfl, fun hne => absurd rfl hne⟩

theorem wildQuery_counter (qop : QueryOp) (K : String → Prop)
    (hKw : ∀ d, K (redisKeyBase ++ ("*." ++ d))) :
    ∀ st dom rv st', wildQuery qop st dom = .ok (rv, st') → QPostK K st rv st' := by
  intro st dom rv st' h
  have main : ∀ d2, (match queryCore qop noWildcards st (some ("*." ++ d2)) with
      | Except.ok out => (Except.ok out : Except String (List DnsRec × MockRedis))
      | Except.error _ => Except.ok ([], st))
        = .ok (rv, st') → QPostK K st rv st' := by
    intro d2 hm
    cases hq : queryCore qop noWildcards st (some ("*." ++ d2)) with
    | ok out =>
      rw [hq] at hm
      simp only [Except.ok.injEq] at hm
      subst hm
      have hK' : K (redisKeyBase ++ orDomain qop (some ("*." ++ d2))) := by
        simp only [orDomain]
        rw [if_neg (star_append_ne_empty d2)]
        exact hKw d2
      exact queryCore_counter qop noWildcards K st (some ("*." ++ d2)) rv st'
        hK' (noWildcards_counter K) hq
    | error e =>
      rw [hq] at hm
      exact QPostK_of_ok_nil K st rv st' hm
  simp only [wildQuery] at h
  cases hs : pySplitStr '.' 1 dom with
  | nil => simp only [hs] at h; exact QPostK_of_ok_nil K st rv st' h
  | cons sub rest =>
    cases rest with
    | nil => simp only [hs] at h; exact QPostK_of_ok_nil K st rv st' h
    | cons dm rest2 =>
      cases rest2 with
      | cons a b => simp only [hs] at h; exact QPostK_of_ok_nil K st rv st' h
      | nil =>
        simp only [hs] at h
        by_cases hsub : sub = "*"
        · rw [if_pos hsub] at h
          cases hs2 : pySplitStr '.' 1 dm with
          | nil => simp only [hs2] at h; exact QPostK_of_ok_nil K st rv st' h
          | cons s2 r2 =>
            cases r2 with
            | nil => simp only [hs2] at h; exact QPostK_of_ok_nil K st rv st' h
            | cons dm2 r3 =>
              cases r3 with
              | cons a b => simp only [hs2] at h; exact QPostK_of_ok_nil K st rv st' h
              | nil =>
                simp only [hs2] at h
                exact main dm2 h
        · rw [if_neg hsub] at h
          exact main dm h

/-- Theorem: `QueryOp.Query` satisfies the counter postcondition: the incremented
key is the requested domain's key or a wildcard key. -/
theorem Query_counter (qop : QueryOp) (st : MockRedis) (domArg : Option String)
    (wc : Bool) (rv : List DnsRec) (st' : MockRedis)
    (h : Query qop st domArg wc = .ok (rv, st')) :
    QPostK (fun key => key = redisKeyBase ++ orDomain qop domArg ∨
      ∃ d, key = redisKeyBase ++ ("*." ++ d)) st rv st' := by
  unfold Query at h
  cases wc with
  | false =>
    rw [if_neg (by decide)] at h
    exact queryCore_counter qop noWildcards _ st domArg rv st' (Or.inl rfl)
      (noWildcards_counter _) h
  | true =>
    rw [if_pos rfl] at h
    exact queryCore_counter qop (wildQuery qop) _ st domArg rv st' (Or.inl rfl)
      (wildQuery_counter qop _ (fun d => Or.inr ⟨d, rfl⟩)) h

theorem pySplitList_eq_none (sep : Char) (cs : List Char) (h : sep ∉ cs) :
    pySplitList sep cs = none := by
  induction cs with
  | nil => rfl
  | cons c t ih =>
    simp only [pySplitList]
    rw [if_neg (fun hc : c = sep => h (by rw [← hc]; exact List.mem_cons_self c t))]
    rw [ih (fun hm => h (List.mem_cons_of_mem c hm))]

theorem decodeEntries_mem (qop : QueryOp) :
    ∀ (l : List (String × String)) (rv : List DnsRec),
      decodeEntries qop l = .ok rv →
      ∀ e ∈ l, ∀ r, decodeEntry qop e = .ok r → r ∈ rv := by
  intro l
  induction l with
  | nil =>
    intro rv h e he
    simp at he
  | cons x t ih =>
    intro rv h e he r hr
    simp only [decodeEntries] at h
    cases hx : decodeEntry qop x with
    | error e2 => rw [hx] at h; simp [Except.bind] at h
    | ok rx =>
      rw [hx] at h
      simp only [Except.bind] at h
      cases ht : decodeEntries qop t with
      | error e2 => rw [ht] at h; simp [Except.map] at h
      | ok rvt =>
        rw [ht] at h
        simp only [Except.map, Except.ok.injEq] at h
        subst h
        rcases List.mem_cons.mp he with he | he
        · rw [he] at hr
          rw [hx] at hr
          simp only [Except.ok.injEq] at hr
          subst hr
          exact List.mem_cons_self rx rvt
        · exact List.mem_cons_of_mem _ (ih rvt ht e he r hr)

/-- Frame property of `hdel`: any other (key, field) pair is untouched. -/
theorem hget_hdel_frame (st : MockRedis) (k f k' f' : String)
    (h : ¬(k' = k ∧ f' = f)) : hget (hdel st k f) k' f' = hget st k' f' := by
  simp only [hdel]
  by_cases hp : (hget st k f).isSome
  · rw [if_pos hp]
    by_cases hk : k' = k
    · have hf : f' ≠ f := fun hf => h ⟨hk, hf⟩
      rw [hk]
      rw [show hget ⟨alSet st.data k (alErase ((alGet st.data k).getD []) f)⟩ k f'
          = alGet (alErase ((alGet st.data k).getD []) f) f' from by
        simp [hget, alGet_alSet_self]]
      rw [alGet_alErase_ne _ f f' hf, alGet_getD_eq_hget]
    · simp [hget, alGet_alSet_ne _ _ _ _ hk]
  · rw [if_neg hp]

/-- Deleting a list of encoded fields under `kk` leaves any other field of
`kk` unchanged. -/
theorem foldl_hdel_frame (kk f : String) :
    ∀ (l : List DnsRec) (st : MockRedis),
      (∀ r ∈ l, tj r.rtype r.rdata ≠ f) →
      hget (l.foldl (fun s rec => hdel s kk (tj rec.rtype rec.rdata)) st) kk f
        = hget st kk f := by
  intro l
  induction l with
  | nil =>
    intro st h
    rfl
  | cons x t ih =>
    intro st h
    simp only [List.foldl_cons]
    rw [ih _ (fun r hr => h r (List.mem_cons_of_mem x hr))]
    exact hget_hdel_frame st kk (tj x.rtype x.rdata) kk f
      (fun hc => (h x (List.mem_cons_self x t)) hc.2.symm)

/-- Computation rule for `wildQuery` on a domain splitting into a
non-wildcard leftmost label and a remainder. -/
theorem wildQuery_step (qop : QueryOp) (st : MockRedis) (domain sub dm : String)
    (hs : pySplitStr '.' 1 domain = [sub, dm]) (hsub : ¬(sub = "*")) :
    wildQuery qop st domain =
      match queryCore qop noWildcards st (some ("*." ++ dm)) with
      | Except.ok out => Except.ok out
      | Except.error _ => .ok ([], st) := by
  simp only [wildQuery, hs]
  rw [if_neg hsub]

/-- What a successful `AddOp.__init__` guarantees about its inputs and the
resulting operation. -/
theorem mkAddOp_ok_spec (dom recS dataS ttlSpec : String) (op : AddOp)
    (hmk : mkAddOp dom (some recS) (some dataS) ttlSpec = .ok op) :
    dom ≠ "" ∧ recS ≠ "" ∧ dataS ≠ "" ∧
    VALID_RECORDS.contains (pyUpper recS) = true ∧
    ∃ t, decodeTtl ttlSpec = some t ∧ op = ⟨pyLower dom, pyUpper recS, dataS, t⟩ := by
  by_cases hdom : dom = ""
  · rw [mkAddOp, if_pos hdom] at hmk
    exact absurd hmk (by simp)
  rw [mkAddOp, if_neg hdom] at hmk
  by_cases hrec : recS = ""
  · simp only [show (mkQueryOp dom (some recS) (some dataS)).record = none from by
      simp [mkQueryOp, hrec]] at hmk
    exact absurd hmk (by simp)
  simp only [show (mkQueryOp dom (some recS) (some dataS)).record = some (pyUpper recS) from by
    simp [mkQueryOp, hrec]] at hmk
  by_cases hval : VALID_RECORDS.contains (pyUpper recS) = true
  · rw [if_pos hval] at hmk
    by_cases hdat : dataS = ""
    · simp only [show (mkQueryOp dom (some recS) (some dataS)).data = none from by
        simp [mkQueryOp, hdat]] at hmk
      exact absurd hmk (by simp)
    simp only [show (mkQueryOp dom (some recS) (some dataS)).data = some dataS from by
      simp [mkQueryOp, hdat]] at hmk
    cases hdt : decodeTtl ttlSpec with
    | none =>
      rw [hdt] at hmk
      exact absurd hmk (by simp)
    | some t =>
      rw [hdt] at hmk
      simp only [Except.ok.injEq] at hmk
      exact ⟨hdom, hrec, hdat, hval, t, rfl, hmk.symm⟩
  · rw [if_neg hval] at hmk
    exact absurd hmk (by simp)

/-! ### Claim theorems -/

/-- C2: TTL decoding. A trailing `M`/`H`/`D`/`W` in either case multiplies
the integer value of the remaining prefix by 60/3600/86400/604800
("5M" → 300, "1H" → 3600, "1D" → 86400, "1W" → 604800); any other spec is
parsed as a plain integer of seconds ("120" → 120); and when the numeric
portion is not an integer, `add` fails with the `InvalidTtl` validation
error. -/
theorem c2_ttl_decoding :
    (decodeTtlInt "5M" = some 300 ∧ decodeTtlInt "5m" = some 300 ∧
     decodeTtlInt "1H" = some 3600 ∧ decodeTtlInt "1D" = some 86400 ∧
     decodeTtlInt "1W" = some 604800 ∧ decodeTtlInt "120" = some 120) ∧
    (∀ (s : String) (c : Char) (m : Nat), s.toList.getLast? = some c →
       ttlSuffix? c.toUpper = some m →
       decodeTtlInt s = (pyInt? (String.mk s.toList.dropLast)).map (fun n => n * (m : Int))) ∧
    (∀ (s : String) (c : Char), s.toList.getLast? = some c →
       ttlSuffix? c.toUpper = none → decodeTtlInt s = pyInt? s) ∧
    (∀ (dom rec dat ttl : String), dom ≠ "" → rec ≠ "" →
       VALID_RECORDS.contains (pyUpper rec) = true → dat ≠ "" →
       decodeTtlInt ttl = none →
       mkAddOp dom (some rec) (some dat) ttl = .error (.invalidTtl ttl)) := by
  refine ⟨by decide, ?_, ?_, ?_⟩
  · intro s c m hl hs
    simp only [decodeTtlInt, hl, hs]
  · intro s c hl hs
    simp only [decodeTtlInt, hl, hs]
  · intro dom rec dat ttl hdom hrec hval hdat httl
    have h1 : (mkQueryOp dom (some rec) (some dat)).record = some (pyUpper rec) := by
      simp [mkQueryOp, hrec]
    have h2 : (mkQueryOp dom (some rec) (some dat)).data = some dat := by
      simp [mkQueryOp, hdat]
    have h3 : decodeTtl ttl = none := by simp [decodeTtl, httl]
    simp only [mkAddOp]
    rw [if_neg hdom]
    simp only [h1, h2, h3]
    rw [if_pos hval]

/-- C2 witness: the general suffix law applied to the concrete spec "7M". -/
theorem c2_ttl_decoding_witness :
    "7M".toList.getLast? = some 'M' ∧
    decodeTtlInt "7M" = (pyInt? (String.mk "7M".toList.dropLast)).map (fun n => n * ((60 : Nat) : Int)) :=
  ⟨by decide, c2_ttl_decoding.2.1 "7M" 'M' 60 (by decide) (by decide)⟩

/-- C6 (amended): `delete(domain)` with neither filter removes the entire
DomainKey (query counter included); the store-level `delete` returns
whether the key existed, but the operation reports the same success
message regardless of existence. -/
theorem c6_delete_all (st : MockRedis) (q : QueryOp)
    (hr : q.record = none) (hd : q.data = none) :
    DeleteOp.Run q st = .ok ("Deleted all records for " ++ q.domain ++ ".",
        (MockRedis.delete st (redisKeyBase ++ q.domain)).2) ∧
    alGet (MockRedis.delete st (redisKeyBase ++ q.domain)).2.data
      (redisKeyBase ++ q.domain) = none ∧
    (MockRedis.delete st (redisKeyBase ++ q.domain)).1 =
      (alGet st.data (redisKeyBase ++ q.domain)).isSome := by
  refine ⟨?_, ?_, rfl⟩
  · simp only [DeleteOp.Run, hr, hd]
  · exact alGet_alErase_self _ _

/-- C6 witness: whole-domain delete on a store that has the key. -/
theorem c6_delete_all_witness :
    DeleteOp.Run (mkQueryOp "x.com" none none)
        ⟨[("pdns.x.com", [("A\t1.1.1.1", "60"), ("TXT\tQC", "7")])]⟩ =
      .ok ("Deleted all records for " ++ (mkQueryOp "x.com" none none).domain ++ ".",
        (MockRedis.delete ⟨[("pdns.x.com", [("A\t1.1.1.1", "60"), ("TXT\tQC", "7")])]⟩
          (redisKeyBase ++ (mkQueryOp "x.com" none none).domain)).2) ∧
    alGet (MockRedis.delete ⟨[("pdns.x.com", [("A\t1.1.1.1", "60"), ("TXT\tQC", "7")])]⟩
        (redisKeyBase ++ (mkQueryOp "x.com" none none).domain)).2.data
      (redisKeyBase ++ (mkQueryOp "x.com" none none).domain) = none ∧
    (MockRedis.delete ⟨[("pdns.x.com", [("A\t1.1.1.1", "60"), ("TXT\tQC", "7")])]⟩
        (redisKeyBase ++ (mkQueryOp "x.com" none none).domain)).1 =
      (alGet (⟨[("pdns.x.com", [("A\t1.1.1.1", "60"), ("TXT\tQC", "7")])]⟩ : MockRedis).data
        (redisKeyBase ++ (mkQueryOp "x.com" none none).domain)).isSome :=
  c6_delete_all ⟨[("pdns.x.com", [("A\t1.1.1.1", "60"), ("TXT\tQC", "7")])]⟩
    (mkQueryOp "x.com" none none) rfl rfl

/-- C6 counterexample: the operation's report is identical whether or not
the DomainKey existed, refuting "reports success or no-op according to
whether the key existed". -/
theorem c6_delete_report_counterexample :
    (DeleteOp.Run (mkQueryOp "x.com" none none) ⟨[]⟩).map Prod.fst =
      (DeleteOp.Run (mkQueryOp "x.com" none none)
        ⟨[("pdns.x.com", [("A\t1.1.1.1", "60")])]⟩).map Prod.fst ∧
    alGet (⟨[]⟩ : MockRedis).data "pdns.x.com" = none ∧
    (alGet (⟨[("pdns.x.com", [("A\t1.1.1.1", "60")])]⟩ : MockRedis).data
      "pdns.x.com").isSome = true := by
  refine ⟨by decide, by decide, by decide⟩

/-- C7: whenever a record's data carries the reserved `self` marker with an
embedded self-test specification (a `:` is present), `SendRecord` raises —
the source calls `MagicTest` with the unbound name `want` (the unpacked
`test_want` is never used), so the self-test never runs and the per-record
processing always fails as a per-request error; concretely, a query hitting
such a record yields an internal-error `LOG` line and `FAIL` instead of a
`DATA` line with the local IP. -/
theorem c7_self_test_bug :
    (∀ (cs : ChatState) (r : DnsRec),
        pyStartsWith r.rdata "self" = true → pyContains r.rdata ':' = true →
        ∃ e, SendRecord cs r = .error e) ∧
    loopStep ⟨some "5.6.7.8", false, []⟩
      ⟨[("pdns.test.com", [("A\tself:PRE:http://probe", "300")])]⟩
      "Q\ttest.com\tIN\tA\t-1\t9.9.9.9\t8.8.8.8" =
      (⟨some "5.6.7.8", false, []⟩,
       ⟨[("pdns.test.com", [("A\tself:PRE:http://probe", "300"), ("TXT\tQC", "1")])]⟩,
       ["LOG\tInternal Error: global name want is not defined", "FAIL"]) := by
  constructor
  · intro cs r h1 h2
    simp only [SendRecord, h1, h2]
    by_cases hl : (pySplitStr ':' 2 r.rdata).length < 3
    · rw [if_pos hl]
      exact ⟨_, rfl⟩
    · rw [if_neg hl]
      exact ⟨_, rfl⟩
  · decide

/-- C7 witness: the failure law applied to a concrete self-marker record
with an embedded test specification. -/
theorem c7_self_test_bug_witness :
    ∃ e, SendRecord ⟨some "5.6.7.8", false, []⟩
      ⟨"test.com", "A", "300", "self:PRE:http://probe"⟩ = .error e :=
  c7_self_test_bug.1 ⟨some "5.6.7.8", false, []⟩
    ⟨"test.com", "A", "300", "self:PRE:http://probe"⟩ (by decide) (by decide)

/-- C10 counterexample: when the single filter itself matches the reserved
query-counter field, the counter is incremented and then deleted with the
matches, so the final hash does not hold the incremented counter. -/
theorem c10_delete_counter_counterexample :
    DeleteOp.Run (mkQueryOp "d.com" none (some "QC"))
        ⟨[("pdns.d.com", [("TXT\tQC", "5")])]⟩ =
      .ok ("Deleted 1 records from d.com.", ⟨[("pdns.d.com", [])]⟩) ∧
    qcInt (⟨[("pdns.d.com", [("TXT\tQC", "5")])]⟩ : MockRedis) "pdns.d.com" = 5 ∧
    hget (⟨[("pdns.d.com", [])]⟩ : MockRedis) "pdns.d.com" qcField = none := by
  refine ⟨by decide, by decide, by decide⟩

/-- C10 (amended): `delete` with exactly one filter whose (non-empty) match
set does not include the reserved query-counter field leaves the counter
incremented by 1 — the matches are enumerated through the query path, which
counts the non-empty result before the fields are deleted. -/
theorem c10_delete_increments_counter (st : MockRedis) (q : QueryOp)
    (rv : List DnsRec) (st1 : MockRedis)
    (hfilter : (q.record = none ∧ q.data ≠ none) ∨ (q.record ≠ none ∧ q.data = none))
    (hq : queryCore q noWildcards st none = .ok (rv, st1))
    (hne : rv ≠ [])
    (hnoqc : ∀ r ∈ rv, tj r.rtype r.rdata ≠ qcField) :
    DeleteOp.Run q st =
      .ok ("Deleted " ++ toString rv.length ++ " records from " ++ q.domain ++ ".",
        rv.foldl (fun s rec => hdel s (redisKeyBase ++ q.domain) (tj rec.rtype rec.rdata)) st1) ∧
    hget (rv.foldl (fun s rec => hdel s (redisKeyBase ++ q.domain) (tj rec.rtype rec.rdata)) st1)
      (redisKeyBase ++ q.domain) qcField
      = some (toString (qcInt st (redisKeyBase ++ q.domain) + 1)) := by
  have hpost := queryCore_counter q noWildcards
    (fun key => key = redisKeyBase ++ orDomain q none) st none rv st1 rfl
    (noWildcards_counter _) hq
  obtain ⟨key, hkey, hi⟩ := hpost.2 hne
  constructor
  · rcases hfilter with ⟨hr, hd⟩ | ⟨hr, hd⟩
    · obtain ⟨d, hd'⟩ := Option.ne_none_iff_exists'.mp hd
      simp only [DeleteOp.Run, hr, hd']
      rw [hq]
      rfl
    · obtain ⟨r, hr'⟩ := Option.ne_none_iff_exists'.mp hr
      simp only [DeleteOp.Run, hr', hd]
      rw [hq]
      rfl
  · rw [foldl_hdel_frame _ _ rv st1 hnoqc]
    rw [show (redisKeyBase ++ q.domain) = key from hkey.symm]
    exact hget_hincrby_self _ _ _ _ _ _ hi

/-- C10 witness: a data-only filter whose match is an ordinary record
leaves the counter incremented under the domain key. -/
theorem c10_delete_increments_counter_witness :
    DeleteOp.Run (mkQueryOp "w.com" none (some "1.2.3.4"))
        ⟨[("pdns.w.com", [("A\t1.2.3.4", "300"), ("TXT\tQC", "5")])]⟩ =
      .ok ("Deleted " ++ toString [(⟨"w.com", "A", "300", "1.2.3.4"⟩ : DnsRec)].length ++
            " records from " ++ (mkQueryOp "w.com" none (some "1.2.3.4")).domain ++ ".",
        [(⟨"w.com", "A", "300", "1.2.3.4"⟩ : DnsRec)].foldl
          (fun s rec => hdel s (redisKeyBase ++ (mkQueryOp "w.com" none (some "1.2.3.4")).domain)
            (tj rec.rtype rec.rdata))
          ⟨[("pdns.w.com", [("A\t1.2.3.4", "300"), ("TXT\tQC", "6")])]⟩) ∧
    hget ([(⟨"w.com", "A", "300", "1.2.3.4"⟩ : DnsRec)].foldl
        (fun s rec => hdel s (redisKeyBase ++ (mkQueryOp "w.com" none (some "1.2.3.4")).domain)
          (tj rec.rtype rec.rdata))
        ⟨[("pdns.w.com", [("A\t1.2.3.4", "300"), ("TXT\tQC", "6")])]⟩)
      (redisKeyBase ++ (mkQueryOp "w.com" none (some "1.2.3.4")).domain) qcField
      = some (toString (qcInt ⟨[("pdns.w.com", [("A\t1.2.3.4", "300"), ("TXT\tQC", "5")])]⟩
          (redisKeyBase ++ (mkQueryOp "w.com" none (some "1.2.3.4")).domain) + 1)) :=
  c10_delete_increments_counter
    ⟨[("pdns.w.com", [("A\t1.2.3.4", "300"), ("TXT\tQC", "5")])]⟩
    (mkQueryOp "w.com" none (some "1.2.3.4"))
    [⟨"w.com", "A", "300", "1.2.3.4"⟩]
    ⟨[("pdns.w.com", [("A\t1.2.3.4", "300"), ("TXT\tQC", "6")])]⟩
    (Or.inl ⟨rfl, by decide⟩) (by decide) (by decide) (by decide)

/-- C4: a query call returning a non-empty result performs exactly one
increment, by exactly 1, of the reserved query counter under the matched
DomainKey (the requested domain's key or a wildcard ancestor's key), no
matter how many records are returned; a call returning the empty result
leaves the store completely unchanged. -/
theorem c4_query_counter (qop : QueryOp) (st : MockRedis) (wc : Bool)
    (rv : List DnsRec) (st' : MockRedis)
    (h : Query qop st none wc = .ok (rv, st')) :
    (rv = [] → st' = st) ∧
    (rv ≠ [] → ∃ key,
      (key = redisKeyBase ++ qop.domain ∨ ∃ d, key = redisKeyBase ++ ("*." ++ d)) ∧
      hincrby st key qcField 1 = .ok (qcInt st key + 1, st')) :=
  Query_counter qop st none wc rv st' h

/-- C4 witness: a both-filter hit increments the counter once. -/
theorem c4_query_counter_witness :
    (([(⟨"w.com", "A", "300", "1.2.3.4"⟩ : DnsRec)] = ([] : List DnsRec)) →
      (⟨[("pdns.w.com", [("A\t1.2.3.4", "300"), ("TXT\tQC", "1")])]⟩ : MockRedis) =
        ⟨[("pdns.w.com", [("A\t1.2.3.4", "300")])]⟩) ∧
    (([(⟨"w.com", "A", "300", "1.2.3.4"⟩ : DnsRec)] ≠ ([] : List DnsRec)) → ∃ key,
      (key = redisKeyBase ++ (mkQueryOp "w.com" (some "A") (some "1.2.3.4")).domain ∨
        ∃ d, key = redisKeyBase ++ ("*." ++ d)) ∧
      hincrby ⟨[("pdns.w.com", [("A\t1.2.3.4", "300")])]⟩ key qcField 1 =
        .ok (qcInt ⟨[("pdns.w.com", [("A\t1.2.3.4", "300")])]⟩ key + 1,
          ⟨[("pdns.w.com", [("A\t1.2.3.4", "300"), ("TXT\tQC", "1")])]⟩)) :=
  c4_query_counter (mkQueryOp "w.com" (some "A") (some "1.2.3.4"))
    ⟨[("pdns.w.com", [("A\t1.2.3.4", "300")])]⟩ false
    [⟨"w.com", "A", "300", "1.2.3.4"⟩]
    ⟨[("pdns.w.com", [("A\t1.2.3.4", "300"), ("TXT\tQC", "1")])]⟩ (by decide)

/-- C5: in the protocol main loop, an input line that does not split into
exactly 7 tab-separated fields, or a request whose processing raises, makes
the machine flush its buffered log lines, emit a `LOG` line describing the
problem and then a `FAIL` line — and the loop then goes on to read the next
request (processing a stream always continues with the remaining lines). -/
theorem c5_loop_recovers (cs : ChatState) (st : MockRedis) (line : String)
    (rest : List String) :
    ((pySplitAll '\t' line).length ≠ 7 →
       loopStep cs st line =
         ({ cs with logBuffer := [] }, st,
          cs.logBuffer.map (fun m => "LOG\t" ++ m) ++
            ["LOG\tPowerDNS sent bad request: " ++ pyListRepr (pySplitAll '\t' line),
             "FAIL"])) ∧
    (∀ outs cs' st' e, (pySplitAll '\t' line).length = 7 →
       Lookup cs st (pySplitAll '\t' line) = (outs, cs', st', some e) →
       loopStep cs st line =
         ({ cs' with logBuffer := [] }, st',
          outs ++ cs'.logBuffer.map (fun m => "LOG\t" ++ m) ++
            ["LOG\tInternal Error: " ++ e, "FAIL"])) ∧
    runLines cs st (line :: rest) =
      (loopStep cs st line).2.2 ++
        runLines (loopStep cs st line).1 (loopStep cs st line).2.1 rest := by
  refine ⟨?_, ?_, ?_⟩
  · intro h
    simp only [loopStep]
    rw [if_neg h]
  · intro outs cs' st' e h7 hl
    simp only [loopStep]
    rw [if_pos h7]
    simp only [hl]
  · simp only [runLines]

/-- C1: a valid `add(domain, type, data, ttlSpec)` followed by
`query(domain, type, data)` (both filters set) returns the single result
tuple for that record, whose TTL is the decoded seconds value of
`ttlSpec` (the stored counter must be well formed so the query's counter
increment succeeds). -/
theorem c1_add_then_query (st : MockRedis) (dom recS dataS ttlSpec : String) (op : AddOp)
    (hmk : mkAddOp dom (some recS) (some dataS) ttlSpec = .ok op)
    (hqc : qcOK (AddOp.Run op st).2 (redisKeyBase ++ pyLower dom) = true) :
    ∃ st2, Query (mkQueryOp dom (some recS) (some dataS)) (AddOp.Run op st).2 none false
        = .ok ([⟨pyLower dom, pyUpper recS, op.ttl, dataS⟩], st2) ∧
      decodeTtl ttlSpec = some op.ttl := by
  obtain ⟨hdom, hrec, hdat, hval, t, hdt, hop⟩ :=
    mkAddOp_ok_spec dom recS dataS ttlSpec op hmk
  subst hop
  have hrq : (mkQueryOp dom (some recS) (some dataS)).record = some (pyUpper recS) := by
    simp [mkQueryOp, hrec]
  have hdq : (mkQueryOp dom (some recS) (some dataS)).data = some dataS := by
    simp [mkQueryOp, hdat]
  have hkey : redisKeyBase ++ orDomain (mkQueryOp dom (some recS) (some dataS)) none
      = redisKeyBase ++ pyLower dom := rfl
  have hhit : hget (AddOp.Run ⟨pyLower dom, pyUpper recS, dataS, t⟩ st).2
      (redisKeyBase ++ pyLower dom) (tj (pyUpper recS) dataS) = some t := by
    simp only [AddOp.Run]
    exact hget_hset_self st (redisKeyBase ++ pyLower dom) (tj (pyUpper recS) dataS) t
  obtain ⟨n, st2, hi⟩ := hincrby_ok_of_qcOK _ _ 1 hqc
  refine ⟨st2, ?_, hdt⟩
  unfold Query
  rw [if_neg (by decide)]
  simp only [queryCore, hrq, hdq]
  rw [hkey, hhit, hi]
  rfl

/-- C1 witness: adding an A record with TTL spec "5M" and querying it back
yields that record with TTL 300. -/
theorem c1_add_then_query_witness :
    ∃ st2, Query (mkQueryOp "Ex.Com" (some "a") (some "1.2.3.4"))
        (AddOp.Run ⟨"ex.com", "A", "1.2.3.4", "300"⟩ ⟨[]⟩).2 none false
        = .ok ([⟨pyLower "Ex.Com", pyUpper "a",
                (⟨"ex.com", "A", "1.2.3.4", "300"⟩ : AddOp).ttl, "1.2.3.4"⟩], st2) ∧
      decodeTtl "5M" = some (⟨"ex.com", "A", "1.2.3.4", "300"⟩ : AddOp).ttl :=
  c1_add_then_query ⟨[]⟩ "Ex.Com" "a" "1.2.3.4" "5M"
    ⟨"ex.com", "A", "1.2.3.4", "300"⟩ (by decide) (by decide)

/-- C9: the wildcard fallback is single-level — the fallback query runs with
wildcards disabled, so a domain like `a.b.c.d` whose records exist only
under a wildcard above its immediate parent (e.g. `*.c.d`) yields the empty
result from a wildcard-enabled query (and the store is untouched). -/
theorem c9_single_level_fallback (st : MockRedis) (rec dat : Option String)
    (h1 : alGet st.data "pdns.a.b.c.d" = none)
    (h2 : alGet st.data "pdns.*.b.c.d" = none) :
    Query (mkQueryOp "a.b.c.d" rec dat) st none true = .ok ([], st) := by
  unfold Query
  rw [if_pos rfl]
  have hk1 : redisKeyBase ++ orDomain (mkQueryOp "a.b.c.d" rec dat) none
      = "pdns.a.b.c.d" := rfl
  rw [queryCore_miss _ _ _ _ (by rw [hk1]; exact h1)]
  have hod : orDomain (mkQueryOp "a.b.c.d" rec dat) none = "a.b.c.d" := rfl
  rw [hod]
  rw [wildQuery_step (mkQueryOp "a.b.c.d" rec dat) st "a.b.c.d" "a" "b.c.d"
    (by decide) (by decide)]
  have hk2 : redisKeyBase ++ orDomain (mkQueryOp "a.b.c.d" rec dat) (some ("*." ++ "b.c.d"))
      = "pdns.*.b.c.d" := rfl
  rw [queryCore_miss _ _ _ _ (by rw [hk2]; exact h2)]
  rfl

/-- C9 witness: records only under `*.c.d`, queried as `a.b.c.d` with
wildcards enabled, give the empty result. -/
theorem c9_single_level_fallback_witness :
    Query (mkQueryOp "a.b.c.d" none none)
      ⟨[("pdns.*.c.d", [("A\t9.9.9.9", "60")])]⟩ none true =
      .ok ([], ⟨[("pdns.*.c.d", [("A\t9.9.9.9", "60")])]⟩) :=
  c9_single_level_fallback ⟨[("pdns.*.c.d", [("A\t9.9.9.9", "60")])]⟩ none none
    (by decide) (by decide)

/-- C3: wildcard fallback. If the store holds nothing under
`foo.bar.com` but holds exactly one field under `*.bar.com`, a
wildcard-enabled query for `foo.bar.com` returns that entry labeled with
the originally requested domain `foo.bar.com`; and the wildcard fallback of
a domain with no label separator returns the empty result. -/
theorem c3_wildcard_fallback :
    (∀ (st : MockRedis) (f t r d : String),
       hgetall st "pdns.foo.bar.com" = [] →
       hgetall st "pdns.*.bar.com" = [(f, t)] →
       pySplitStr '\t' 1 f = [r, d] →
       qcOK st "pdns.*.bar.com" = true →
       ∃ st2, Query (mkQueryOp "foo.bar.com" none none) st none true
         = .ok ([⟨"foo.bar.com", r, t, d⟩], st2)) ∧
    (∀ (qop : QueryOp) (st : MockRedis) (s : String), '.' ∉ s.toList →
       wildQuery qop st s = .ok ([], st)) := by
  constructor
  · intro st f tl r d h1 h2 hf hqc
    obtain ⟨n, st2, hi⟩ := hincrby_ok_of_qcOK st "pdns.*.bar.com" 1 hqc
    refine ⟨st2, ?_⟩
    have hrq : (mkQueryOp "foo.bar.com" none none).record = none := rfl
    have hdq : (mkQueryOp "foo.bar.com" none none).data = none := rfl
    have hk1 : redisKeyBase ++ orDomain (mkQueryOp "foo.bar.com" none none) none
        = "pdns.foo.bar.com" := rfl
    have hod : orDomain (mkQueryOp "foo.bar.com" none none) none = "foo.bar.com" := rfl
    have hk2 : redisKeyBase ++ orDomain (mkQueryOp "foo.bar.com" none none)
        (some ("*." ++ "bar.com")) = "pdns.*.bar.com" := rfl
    have hdf : decodeField f = .ok (r, d) := by simp [decodeField, hf]
    have hde : decodeEntries (mkQueryOp "foo.bar.com" none none) [(f, tl)]
        = .ok [⟨"foo.bar.com", r, tl, d⟩] := by
      simp only [decodeEntries, decodeEntry, hdf, Except.map, Except.bind]
      rfl
    unfold Query
    rw [if_pos rfl]
    simp only [queryCore, hrq, hdq]
    rw [hk1, h1]
    simp only [decodeEntries, Except.bind, filterRecs_nil]
    rw [if_pos trivial, hod]
    rw [wildQuery_step (mkQueryOp "foo.bar.com" none none) st "foo.bar.com" "foo" "bar.com"
      (by decide) (by decide)]
    simp only [queryCore, hrq, hdq]
    rw [hk2, h2, hde]
    simp only [Except.bind]
    rw [show filterRecs (mkQueryOp "foo.bar.com" none none)
        [(⟨"foo.bar.com", r, tl, d⟩ : DnsRec)] = [⟨"foo.bar.com", r, tl, d⟩] from rfl]
    rw [if_neg (by simp : ¬([(⟨"foo.bar.com", r, tl, d⟩ : DnsRec)] = []))]
    rw [hi]
    rfl
  · intro qop st s h
    have h' : '.' ∉ s.data := h
    have hs : pySplitStr '.' 1 s = [String.mk s.toList] := by
      simp [pySplitStr, pySplitN, pySplitList_eq_none '.' s.data h']
    simp only [wildQuery, hs]

/-- C3 witness: a concrete store with one entry under `*.bar.com`, plus the
unsplittable-domain case. -/
theorem c3_wildcard_fallback_witness :
    (∃ st2, Query (mkQueryOp "foo.bar.com" none none)
        ⟨[("pdns.*.bar.com", [("A\t9.9.9.9", "60")])]⟩ none true
        = .ok ([⟨"foo.bar.com", "A", "60", "9.9.9.9"⟩], st2)) ∧
    wildQuery (mkQueryOp "localhost" none none)
      ⟨[("pdns.*.bar.com", [("A\t9.9.9.9", "60")])]⟩ "localhost" =
      .ok ([], ⟨[("pdns.*.bar.com", [("A\t9.9.9.9", "60")])]⟩) :=
  ⟨c3_wildcard_fallback.1 ⟨[("pdns.*.bar.com", [("A\t9.9.9.9", "60")])]⟩
      "A\t9.9.9.9" "60" "A" "9.9.9.9" (by decide) (by decide) (by decide) (by decide),
   c3_wildcard_fallback.2 (mkQueryOp "localhost" none none)
      ⟨[("pdns.*.bar.com", [("A\t9.9.9.9", "60")])]⟩ "localhost" (by decide)⟩

/-- C8: during protocol query dispatch a record of type `TXT` with data
`"QC"` (the reserved query counter) is never emitted as a `DATA` line, even
though the generic no-filter query path does include that field in its
result set. -/
theorem c8_qc_suppressed :
    (∀ (cs : ChatState) (r : DnsRec) (rest : List DnsRec),
        r.rtype = "TXT" → r.rdata = "QC" →
        emitRecords cs (r :: rest) = emitRecords cs rest) ∧
    (∀ (q : QueryOp) (st : MockRedis) (v : String) (rv : List DnsRec) (st' : MockRedis),
        q.record = none → q.data = none →
        alGet (hgetall st (redisKeyBase ++ q.domain)) qcField = some v →
        Query q st none false = .ok (rv, st') →
        (⟨q.domain, "TXT", v, "QC"⟩ : DnsRec) ∈ rv) := by
  constructor
  · intro cs r rest h1 h2
    have he : emitRecord cs r = .ok [] := by
      simp only [emitRecord, h1, h2]
      rw [if_neg (by decide)]
      rw [if_neg (by simp)]
    simp only [emitRecords, he, List.nil_append]
  · intro q st v rv st' hrec hdat hv h
    unfold Query at h
    rw [if_neg (by decide)] at h
    simp only [queryCore, hrec, hdat] at h
    cases hde : decodeEntries q (hgetall st (redisKeyBase ++ orDomain q none)) with
    | error e =>
      rw [hde] at h
      simp [Except.bind] at h
    | ok recs =>
      rw [hde] at h
      simp only [Except.bind] at h
      have hmem : (⟨q.domain, "TXT", v, "QC"⟩ : DnsRec) ∈ recs := by
        refine decodeEntries_mem q _ recs hde (qcField, v) ?_ _ ?_
        · exact alGet_mem _ _ _ hv
        · simp only [decodeEntry, decodeField,
            show pySplitStr '\t' 1 qcField = ["TXT", "QC"] from by decide, Except.map]
      have hfilter : filterRecs q recs = recs := by simp [filterRecs, hrec, hdat]
      rw [hfilter] at h
      have hnonempty : ¬(recs = []) := fun hn => by
        rw [hn] at hmem
        simp at hmem
      rw [if_neg hnonempty] at h
      cases hi : hincrby st (redisKeyBase ++ orDomain q none) qcField 1 with
      | error e =>
        rw [hi] at h
        simp [Except.map] at h
      | ok p =>
        rw [hi] at h
        simp only [Except.map, Except.ok.injEq, Prod.mk.injEq] at h
        rw [← h.1]
        exact hmem

/-- C8 witness: the reserved counter record contributes no reply line, and
the no-filter query result of a store holding only the counter contains the
counter entry. -/
theorem c8_qc_suppressed_witness :
    emitRecords ⟨none, false, []⟩
        (⟨"q.com", "TXT", "5", "QC"⟩ :: [⟨"q.com", "A", "300", "1.2.3.4"⟩]) =
      emitRecords ⟨none, false, []⟩ [⟨"q.com", "A", "300", "1.2.3.4"⟩] ∧
    (⟨"q.com", "TXT", "5", "QC"⟩ : DnsRec) ∈ [(⟨"q.com", "TXT", "5", "QC"⟩ : DnsRec)] :=
  ⟨c8_qc_suppressed.1 ⟨none, false, []⟩ ⟨"q.com", "TXT", "5", "QC"⟩
      [⟨"q.com", "A", "300", "1.2.3.4"⟩] rfl rfl,
   c8_qc_suppressed.2 (mkQueryOp "q.com" none none)
      ⟨[("pdns.q.com", [("TXT\tQC", "5")])]⟩ "5"
      [⟨"q.com", "TXT", "5", "QC"⟩] ⟨[("pdns.q.com", [("TXT\tQC", "6")])]⟩
      rfl rfl (by decide) (by decide)⟩

/-- C5 witness: a malformed line (1 field) flushes the buffered log line,
logs the bad request and fails. -/
theorem c5_loop_recovers_witness :
    (pySplitAll '\t' "abc").length ≠ 7 ∧
    loopStep ⟨none, false, ["prev"]⟩ ⟨[]⟩ "abc" =
      ({ (⟨none, false, ["prev"]⟩ : ChatState) with logBuffer := [] }, (⟨[]⟩ : MockRedis),
       (["prev"] : List String).map (fun m => "LOG\t" ++ m) ++
         ["LOG\tPowerDNS sent bad request: " ++ pyListRepr (pySplitAll '\t' "abc"),
          "FAIL"]) :=
  ⟨by decide, (c5_loop_recovers ⟨none, false, ["prev"]⟩ ⟨[]⟩ "abc" []).1 (by decide)⟩

end PdnsRedis
